import Mathlib

/-!
A shallow embedding of the tiny_pretty pretty-printing library
(src/doc.rs, src/options.rs, src/print.rs) together with theorems about
its layout engine (`Printer::print_to`), its fitting oracle (`fitting`)
and its text width measurement (`measure_text_width`).

Rust strings become Lean `String` (so `str::len()` is `String.utf8ByteSize`),
usize becomes `Nat`, the mutable output buffer and column counter become
explicit state threading, and the panic on `tab_size == 0` makes the entry
point return an `Option String`.
-/

namespace TinyPretty

/-- Embeds `enum LineBreak` from src/options.rs. -/
inductive LineBreak where
  | Lf
  | Crlf
deriving DecidableEq, Repr

/-- Embeds `enum IndentKind` from src/options.rs. -/
inductive IndentKind where
  | Space
  | Tab
deriving DecidableEq, Repr

/-- Embeds `struct PrintOptions` from src/options.rs. -/
structure PrintOptions where
  line_break : LineBreak
  indent_kind : IndentKind
  width : Nat
  tab_size : Nat
deriving DecidableEq, Repr

/-- Embeds `impl Default for PrintOptions` from src/options.rs:
LF, spaces, width 80, tab size 2. -/
def PrintOptions.default : PrintOptions :=
  { line_break := LineBreak.Lf
    indent_kind := IndentKind.Space
    width := 80
    tab_size := 2 }

/-- Embeds `enum Mode` from src/print.rs. -/
inductive Mode where
  | Flat
  | Break
deriving DecidableEq, Repr

/-- Embeds `enum Doc` from src/doc.rs, restricted to the variants the
printer in src/print.rs interprets (the `Column` closure variant is not
handled by src/print.rs and is outside this development). `Rc` sharing is
dropped: the tree is copied, which cannot change the printed output. -/
inductive Doc where
  | Nil
  | Alt (doc_flat doc_break : Doc)
  | Union (attempt alternate : Doc)
  | Nest (offset : Nat) (doc : Doc)
  | Text (text : String)
  | NewLine
  | EmptyLine
  | Break (spaces offset : Nat)
  | Group (docs : List Doc)
  | List (docs : List Doc)
  | GroupThen (group : List Doc) (doc_flat doc_break : Doc)

/-- A list of docs (the payload of `Group`, `List` and `GroupThen`).
Named so that signatures inside the `Doc` namespace can mention it without
colliding with the constructor `Doc.List`. -/
abbrev DocList := List Doc

mutual

/-- Node count of a doc tree; the termination measure of the worklist
interpreters below. -/
def Doc.size : Doc → Nat
  | .Nil => 1
  | .Alt f b => 1 + f.size + b.size
  | .Union a b => 1 + a.size + b.size
  | .Nest _ d => 1 + d.size
  | .Text _ => 1
  | .NewLine => 1
  | .EmptyLine => 1
  | .Break _ _ => 1
  | .Group ds => 1 + Doc.sizeList ds
  | .List ds => 1 + Doc.sizeList ds
  | .GroupThen g f b => 1 + Doc.sizeList g + f.size + b.size

/-- Total node count of a list of docs. -/
def Doc.sizeList : DocList → Nat
  | [] => 0
  | d :: ds => d.size + Doc.sizeList ds

end

/-- Embeds `type Action` from src/print.rs: indent, mode, doc.
A stack of actions is a Lean list whose head is the top of the stack. -/
abbrev Action := Nat × Mode × Doc

/-- Total doc size of a stack of actions. -/
def actionsSize (l : List Action) : Nat :=
  (l.map fun a => a.2.2.size).sum

theorem actionsSize_nil : actionsSize [] = 0 := rfl

theorem actionsSize_cons (a : Action) (rest : List Action) :
    actionsSize (a :: rest) = a.2.2.size + actionsSize rest := by
  simp [actionsSize]

theorem actionsSize_append (l₁ l₂ : List Action) :
    actionsSize (l₁ ++ l₂) = actionsSize l₁ + actionsSize l₂ := by
  simp [actionsSize]

theorem actionsSize_map (i : Nat) (m : Mode) (ds : List Doc) :
    actionsSize (ds.map fun d => (i, m, d)) = Doc.sizeList ds := by
  induction ds with
  | nil => simp [actionsSize, Doc.sizeList]
  | cons d ds ih =>
    simp only [List.map_cons, actionsSize_cons] at *
    simp [Doc.sizeList, ih]

/-- Embeds `measure_text_width` from src/print.rs without the
unicode-width feature: Rust `str::len()`, the UTF-8 byte length. -/
def measure_text_width (text : String) : Nat :=
  text.utf8ByteSize

/-- Embeds Rust `str::repeat`. -/
def strRepeat (s : String) (n : Nat) : String :=
  String.join (List.replicate n s)

/-- The line break text selected in `Printer::print_to` from the
`line_break` option (src/print.rs lines 47-50). -/
def lineBreakStr : LineBreak → String
  | .Lf => "\n"
  | .Crlf => "\r\n"

/-- The indentation padding emitted for a target indent, as written inline
in the `Doc::NewLine` and `Doc::Break` arms of `Printer::print_to`
(src/print.rs lines 91-99 and 114-126): spaces policy prints `n` spaces,
tab policy prints `n / tab_size` tabs then `n % tab_size` spaces. -/
def makeIndentCore (ik : IndentKind) (tab_size n : Nat) : String :=
  match ik with
  | .Space => strRepeat " " n
  | .Tab => strRepeat "\t" (n / tab_size) ++ strRepeat " " (n % tab_size)

/-- `makeIndentCore` applied to the configured indent kind and tab size. -/
def makeIndent (opts : PrintOptions) (n : Nat) : String :=
  makeIndentCore opts.indent_kind opts.tab_size n

/-- Embeds `fitting` from src/print.rs (lines 210-262): pops from its own
vector first, then draws from the iterator over the remaining real stack;
pushed children go onto the vector only. Returns whether the whole
remaining content, with the candidate under Flat, stays within `width`
up to the next safe break point. -/
def fitting : List Action → List Action → Nat → Nat → Bool
  | [], [], _, _ => true
  | [], b :: best, cols, width => fitting [b] best cols width
  | (indent, mode, doc) :: rest, best, cols, width =>
    match doc with
    | .Nil =>
      if cols > width then false else fitting rest best cols width
    | .Alt doc_flat doc_break =>
      match mode with
      | .Flat =>
        if cols > width then false else fitting ((indent, mode, doc_flat) :: rest) best cols width
      | .Break =>
        if cols > width then false else fitting ((indent, mode, doc_break) :: rest) best cols width
    | .Union _ doc =>
      if cols > width then false else fitting ((indent, mode, doc) :: rest) best cols width
    | .Nest offset doc =>
      if cols > width then false else fitting ((indent + offset, mode, doc) :: rest) best cols width
    | .Text text =>
      let cols := cols + measure_text_width text
      if cols > width then false else fitting rest best cols width
    | .Break spaces _ =>
      match mode with
      | .Flat =>
        let cols := cols + spaces
        if cols > width then false else fitting rest best cols width
      | .Break => true
    | .NewLine =>
      match mode with
      | .Flat => false
      | .Break => true
    | .EmptyLine =>
      if cols > width then false else fitting rest best cols width
    | .Group ds =>
      if cols > width then false
      else fitting ((ds.map fun d => (indent, mode, d)) ++ rest) best cols width
    | .List ds =>
      if cols > width then false
      else fitting ((ds.map fun d => (indent, mode, d)) ++ rest) best cols width
    | .GroupThen g doc_flat doc_break =>
      match mode with
      | .Flat =>
        if cols > width then false
        else fitting ((g.map fun d => (indent, mode, d)) ++ (indent, mode, doc_flat) :: rest) best cols width
      | .Break =>
        if cols > width then false
        else fitting ((g.map fun d => (indent, mode, d)) ++ (indent, mode, doc_break) :: rest) best cols width
termination_by actions best _ _ => 2 * (actionsSize actions + actionsSize best) + best.length
decreasing_by
  all_goals simp only [actionsSize_nil, actionsSize_cons, actionsSize_append, actionsSize_map,
    List.length_cons, Doc.size]
  all_goals omega

/-- Result of one invocation of the layout engine: the text it appended,
the final column, and the aggregate fits flag of that invocation. -/
structure PrintResult where
  out : String
  cols : Nat
  fits : Bool
deriving DecidableEq, Repr

/-- Embeds `Printer::print_to` from src/print.rs (lines 46-201).
`actions` is the part of the real stack above `stop_at`, the part this
invocation is allowed to pop; `tail` is the part below `stop_at`, which is
never popped here but is visible to the fitting oracle (in Rust both live
in the one `self.actions` vector, and the loop stops once its length falls
back to `stop_at`). Returns the text this invocation appended, the final
column, and the fits flag of this invocation. In the `Doc::Union` arm the
attempt branch renders through a nested invocation with the rest of the
stack frozen; on success its buffer is appended and the advanced column
kept, on failure the column is restored and the fallback is pushed. -/
def printTo (opts : PrintOptions) : List Action → List Action → Nat → PrintResult
  | _, [], cols => ⟨"", cols, true⟩
  | tail, (indent, mode, doc) :: rest, cols =>
    match doc with
    | .Nil => printTo opts tail rest cols
    | .Alt doc_flat doc_break =>
      match mode with
      | .Flat => printTo opts tail ((indent, mode, doc_flat) :: rest) cols
      | .Break => printTo opts tail ((indent, mode, doc_break) :: rest) cols
    | .Union attempt alternate =>
      if (printTo opts (rest ++ tail) [(indent, mode, attempt)] cols).fits then
        ⟨(printTo opts (rest ++ tail) [(indent, mode, attempt)] cols).out ++
            (printTo opts tail rest
              (printTo opts (rest ++ tail) [(indent, mode, attempt)] cols).cols).out,
          (printTo opts tail rest
            (printTo opts (rest ++ tail) [(indent, mode, attempt)] cols).cols).cols,
          (printTo opts tail rest
            (printTo opts (rest ++ tail) [(indent, mode, attempt)] cols).cols).fits⟩
      else
        printTo opts tail ((indent, mode, alternate) :: rest) cols
    | .Nest offset doc =>
      printTo opts tail ((indent + offset, mode, doc) :: rest) cols
    | .Text text =>
      let cols := cols + measure_text_width text
      let k := printTo opts tail rest cols
      ⟨text ++ k.out, k.cols, (decide (cols ≤ opts.width)) && k.fits⟩
    | .NewLine =>
      let k := printTo opts tail rest indent
      ⟨lineBreakStr opts.line_break ++ makeIndent opts indent ++ k.out, k.cols,
        (decide (indent ≤ opts.width)) && k.fits⟩
    | .EmptyLine =>
      let k := printTo opts tail rest cols
      ⟨lineBreakStr opts.line_break ++ k.out, k.cols, k.fits⟩
    | .Break spaces offset =>
      match mode with
      | .Flat =>
        let cols := cols + spaces
        let k := printTo opts tail rest cols
        ⟨strRepeat " " spaces ++ k.out, k.cols, (decide (cols ≤ opts.width)) && k.fits⟩
      | .Break =>
        let cols := indent + offset
        let k := printTo opts tail rest cols
        ⟨lineBreakStr opts.line_break ++ makeIndent opts cols ++ k.out, k.cols,
          (decide (cols ≤ opts.width)) && k.fits⟩
    | .Group ds =>
      match mode with
      | .Flat =>
        printTo opts tail ((ds.map fun d => (indent, Mode.Flat, d)) ++ rest) cols
      | .Break =>
        if fitting (ds.map fun d => (indent, Mode.Flat, d)) (rest ++ tail) cols opts.width then
          printTo opts tail ((ds.map fun d => (indent, Mode.Flat, d)) ++ rest) cols
        else
          printTo opts tail ((ds.map fun d => (indent, Mode.Break, d)) ++ rest) cols
    | .List ds =>
      printTo opts tail ((ds.map fun d => (indent, mode, d)) ++ rest) cols
    | .GroupThen g doc_flat doc_break =>
      match mode with
      | .Flat =>
        printTo opts tail ((g.map fun d => (indent, Mode.Flat, d)) ++ (indent, Mode.Flat, doc_flat) :: rest) cols
      | .Break =>
        if fitting (g.map fun d => (indent, Mode.Flat, d)) (rest ++ tail) cols opts.width then
          printTo opts tail ((g.map fun d => (indent, Mode.Flat, d)) ++ (indent, Mode.Break, doc_flat) :: rest) cols
        else
          printTo opts tail ((g.map fun d => (indent, Mode.Break, d)) ++ (indent, Mode.Break, doc_break) :: rest) cols
termination_by _ actions _ => actionsSize actions
decreasing_by
  all_goals simp only [actionsSize_nil, actionsSize_cons, actionsSize_append, actionsSize_map,
    List.length_cons, Doc.size]
  all_goals omega

/-- Embeds `print` from src/print.rs (lines 19-26). The Rust function
asserts `options.tab_size > 0` before any work; the panic is modelled as
`none`, returned before any node is processed. -/
def print (doc : Doc) (options : PrintOptions) : Option String :=
  if options.tab_size > 0 then
    some (printTo options [] [(0, Mode.Break, doc)] 0).out
  else
    none

/-- Embeds `Doc::text` from src/doc.rs. -/
def Doc.text (s : String) : Doc := Doc.Text s

/-- Embeds `Doc::nil` from src/doc.rs. -/
def Doc.nil : Doc := Doc.Nil

/-- Embeds `Doc::hard_line` from src/doc.rs. -/
def Doc.hard_line : Doc := Doc.NewLine

/-- Embeds `Doc::soft_line` from src/doc.rs (lines 155-157). -/
def Doc.soft_line : Doc := Doc.Group [Doc.Break 1 0]

/-- Embeds `Doc::empty_line` from src/doc.rs. -/
def Doc.empty_line : Doc := Doc.EmptyLine

/-- Embeds `Doc::list` from src/doc.rs. -/
def Doc.list (docs : DocList) : Doc := Doc.List docs

/-- Embeds `Doc::line_or_space` from src/doc.rs. -/
def Doc.line_or_space : Doc := Doc.Break 1 0

/-- Embeds `Doc::line_or_nil` from src/doc.rs. -/
def Doc.line_or_nil : Doc := Doc.Break 0 0

/-- Embeds `Doc::flat_or_break` from src/doc.rs. -/
def Doc.flat_or_break (doc_flat doc_break : Doc) : Doc := Doc.Alt doc_flat doc_break

/-- Embeds `Doc::union` from src/doc.rs. -/
def Doc.union (self alternate : Doc) : Doc := Doc.Union self alternate

/-- Embeds `Doc::group` from src/doc.rs (lines 466-472). -/
def Doc.group : Doc → Doc
  | .List l => .Group l
  | .Group g => .Group g
  | d => .Group [d]

/-- Embeds `Doc::nest` from src/doc.rs (lines 528-535): nesting a
`Break` folds the amount into its offset, anything else is wrapped. -/
def Doc.nest (self : Doc) (size : Nat) : Doc :=
  match self with
  | .Break spaces offset => .Break spaces (offset + size)
  | d => .Nest size d

/-- The event on which one run of the fitting oracle terminates. -/
inductive FitOutcome where
  | flexBreak
  | hardLineBreak
  | hardLineFlat
  | overflow
  | allFit
deriving DecidableEq, Repr

/-- Whether a terminating event counts as fitting: a Break-mode `Break`,
a Break-mode `NewLine` and exhaustion fit; a Flat-mode `NewLine` and a
width overflow do not. -/
def FitOutcome.fits : FitOutcome → Bool
  | .hardLineFlat => false
  | .overflow => false
  | _ => true

/-- An instrumented copy of `fitting` that records which event ended the
scan instead of collapsing it to a Bool; `fitting_eq_fitResult` below
proves it agrees with `fitting` step for step. -/
def fitResult : List Action → List Action → Nat → Nat → FitOutcome
  | [], [], _, _ => .allFit
  | [], b :: best, cols, width => fitResult [b] best cols width
  | (indent, mode, doc) :: rest, best, cols, width =>
    match doc with
    | .Nil =>
      if cols > width then .overflow else fitResult rest best cols width
    | .Alt doc_flat doc_break =>
      match mode with
      | .Flat =>
        if cols > width then .overflow else fitResult ((indent, mode, doc_flat) :: rest) best cols width
      | .Break =>
        if cols > width then .overflow else fitResult ((indent, mode, doc_break) :: rest) best cols width
    | .Union _ doc =>
      if cols > width then .overflow else fitResult ((indent, mode, doc) :: rest) best cols width
    | .Nest offset doc =>
      if cols > width then .overflow else fitResult ((indent + offset, mode, doc) :: rest) best cols width
    | .Text text =>
      let cols := cols + measure_text_width text
      if cols > width then .overflow else fitResult rest best cols width
    | .Break spaces _ =>
      match mode with
      | .Flat =>
        let cols := cols + spaces
        if cols > width then .overflow else fitResult rest best cols width
      | .Break => .flexBreak
    | .NewLine =>
      match mode with
      | .Flat => .hardLineFlat
      | .Break => .hardLineBreak
    | .EmptyLine =>
      if cols > width then .overflow else fitResult rest best cols width
    | .Group ds =>
      if cols > width then .overflow
      else fitResult ((ds.map fun d => (indent, mode, d)) ++ rest) best cols width
    | .List ds =>
      if cols > width then .overflow
      else fitResult ((ds.map fun d => (indent, mode, d)) ++ rest) best cols width
    | .GroupThen g doc_flat doc_break =>
      match mode with
      | .Flat =>
        if cols > width then .overflow
        else fitResult ((g.map fun d => (indent, mode, d)) ++ (indent, mode, doc_flat) :: rest) best cols width
      | .Break =>
        if cols > width then .overflow
        else fitResult ((g.map fun d => (indent, mode, d)) ++ (indent, mode, doc_break) :: rest) best cols width
termination_by actions best _ _ => 2 * (actionsSize actions + actionsSize best) + best.length
decreasing_by
  all_goals simp only [actionsSize_nil, actionsSize_cons, actionsSize_append, actionsSize_map,
    List.length_cons, Doc.size]
  all_goals omega

/-- Modelled from the spec: the oracle that the C4 spec sentence
describes, identical to `fitting` except that at a `Union` it follows
whichever branch the mode attached to the simulated task would pick (the
attempt branch under Flat, the fallback branch under Break). It exists
only to compare that wording against the code, whose `Doc::Union` arm in
`fitting` always pushes the fallback branch. -/
def fittingModePick : List Action → List Action → Nat → Nat → Bool
  | [], [], _, _ => true
  | [], b :: best, cols, width => fittingModePick [b] best cols width
  | (indent, mode, doc) :: rest, best, cols, width =>
    match doc with
    | .Nil =>
      if cols > width then false else fittingModePick rest best cols width
    | .Alt doc_flat doc_break =>
      match mode with
      | .Flat =>
        if cols > width then false else fittingModePick ((indent, mode, doc_flat) :: rest) best cols width
      | .Break =>
        if cols > width then false else fittingModePick ((indent, mode, doc_break) :: rest) best cols width
    | .Union doc_attempt doc_fallback =>
      match mode with
      | .Flat =>
        if cols > width then false else fittingModePick ((indent, mode, doc_attempt) :: rest) best cols width
      | .Break =>
        if cols > width then false else fittingModePick ((indent, mode, doc_fallback) :: rest) best cols width
    | .Nest offset doc =>
      if cols > width then false else fittingModePick ((indent + offset, mode, doc) :: rest) best cols width
    | .Text text =>
      let cols := cols + measure_text_width text
      if cols > width then false else fittingModePick rest best cols width
    | .Break spaces _ =>
      match mode with
      | .Flat =>
        let cols := cols + spaces
        if cols > width then false else fittingModePick rest best cols width
      | .Break => true
    | .NewLine =>
      match mode with
      | .Flat => false
      | .Break => true
    | .EmptyLine =>
      if cols > width then false else fittingModePick rest best cols width
    | .Group ds =>
      if cols > width then false
      else fittingModePick ((ds.map fun d => (indent, mode, d)) ++ rest) best cols width
    | .List ds =>
      if cols > width then false
      else fittingModePick ((ds.map fun d => (indent, mode, d)) ++ rest) best cols width
    | .GroupThen g doc_flat doc_break =>
      match mode with
      | .Flat =>
        if cols > width then false
        else fittingModePick ((g.map fun d => (indent, mode, d)) ++ (indent, mode, doc_flat) :: rest) best cols width
      | .Break =>
        if cols > width then false
        else fittingModePick ((g.map fun d => (indent, mode, d)) ++ (indent, mode, doc_break) :: rest) best cols width
termination_by actions best _ _ => 2 * (actionsSize actions + actionsSize best) + best.length
decreasing_by
  all_goals simp only [actionsSize_nil, actionsSize_cons, actionsSize_append, actionsSize_map,
    List.length_cons, Doc.size]
  all_goals omega

mutual

/-- Whether a doc uses only the `Nil`, `Text`, `List` and `Nest`
constructors (the class of documents claim C5 quantifies over). -/
def Doc.plainTexty : Doc → Bool
  | .Nil => true
  | .Text _ => true
  | .Nest _ d => d.plainTexty
  | .List ds => Doc.plainTextyList ds
  | _ => false

/-- `Doc.plainTexty` over every doc of a list. -/
def Doc.plainTextyList : DocList → Bool
  | [] => true
  | d :: ds => d.plainTexty && Doc.plainTextyList ds

end

mutual

/-- The left-to-right concatenation of all `Text` contents of a doc. -/
def Doc.textContent : Doc → String
  | .Text t => t
  | .Nest _ d => d.textContent
  | .List ds => Doc.textContentList ds
  | _ => ""

/-- `Doc.textContent` concatenated over a list of docs. -/
def Doc.textContentList : DocList → String
  | [] => ""
  | d :: ds => d.textContent ++ Doc.textContentList ds

end

/-- One emitted piece of output, with the line separator kept abstract:
either literal text (text content, spaces, indentation padding) or one
line separator. -/
inductive Tok where
  | txt (s : String)
  | sep

/-- Renders a token list with a concrete line separator text. -/
def renderToks (lb : String) : List Tok → String
  | [] => ""
  | .txt s :: ts => s ++ renderToks lb ts
  | .sep :: ts => lb ++ renderToks lb ts

/-- Result of one invocation of the token-level layout engine. -/
structure ToksResult where
  toks : List Tok
  cols : Nat
  fits : Bool

/-- The layout engine of `printTo` with its output kept as a token list
instead of text, and with the configuration narrowed to the fields the
control flow can read: indent kind, width and tab size. The line-break
spelling is deliberately not a parameter, so this function is one and the
same for LF and CRLF; `printTo_eq_render` below proves that `printTo` is
exactly this engine followed by rendering each separator token with the
configured spelling. -/
def printToks (ik : IndentKind) (width tab_size : Nat) :
    List Action → List Action → Nat → ToksResult
  | _, [], cols => ⟨[], cols, true⟩
  | tail, (indent, mode, doc) :: rest, cols =>
    match doc with
    | .Nil => printToks ik width tab_size tail rest cols
    | .Alt doc_flat doc_break =>
      match mode with
      | .Flat => printToks ik width tab_size tail ((indent, mode, doc_flat) :: rest) cols
      | .Break => printToks ik width tab_size tail ((indent, mode, doc_break) :: rest) cols
    | .Union attempt alternate =>
      if (printToks ik width tab_size (rest ++ tail) [(indent, mode, attempt)] cols).fits then
        ⟨(printToks ik width tab_size (rest ++ tail) [(indent, mode, attempt)] cols).toks ++
            (printToks ik width tab_size tail rest
              (printToks ik width tab_size (rest ++ tail) [(indent, mode, attempt)] cols).cols).toks,
          (printToks ik width tab_size tail rest
            (printToks ik width tab_size (rest ++ tail) [(indent, mode, attempt)] cols).cols).cols,
          (printToks ik width tab_size tail rest
            (printToks ik width tab_size (rest ++ tail) [(indent, mode, attempt)] cols).cols).fits⟩
      else
        printToks ik width tab_size tail ((indent, mode, alternate) :: rest) cols
    | .Nest offset doc =>
      printToks ik width tab_size tail ((indent + offset, mode, doc) :: rest) cols
    | .Text text =>
      let cols := cols + measure_text_width text
      let k := printToks ik width tab_size tail rest cols
      ⟨.txt text :: k.toks, k.cols, (decide (cols ≤ width)) && k.fits⟩
    | .NewLine =>
      let k := printToks ik width tab_size tail rest indent
      ⟨.sep :: .txt (makeIndentCore ik tab_size indent) :: k.toks, k.cols,
        (decide (indent ≤ width)) && k.fits⟩
    | .EmptyLine =>
      let k := printToks ik width tab_size tail rest cols
      ⟨.sep :: k.toks, k.cols, k.fits⟩
    | .Break spaces offset =>
      match mode with
      | .Flat =>
        let cols := cols + spaces
        let k := printToks ik width tab_size tail rest cols
        ⟨.txt (strRepeat " " spaces) :: k.toks, k.cols, (decide (cols ≤ width)) && k.fits⟩
      | .Break =>
        let cols := indent + offset
        let k := printToks ik width tab_size tail rest cols
        ⟨.sep :: .txt (makeIndentCore ik tab_size cols) :: k.toks, k.cols,
          (decide (cols ≤ width)) && k.fits⟩
    | .Group ds =>
      match mode with
      | .Flat =>
        printToks ik width tab_size tail ((ds.map fun d => (indent, Mode.Flat, d)) ++ rest) cols
      | .Break =>
        if fitting (ds.map fun d => (indent, Mode.Flat, d)) (rest ++ tail) cols width then
          printToks ik width tab_size tail ((ds.map fun d => (indent, Mode.Flat, d)) ++ rest) cols
        else
          printToks ik width tab_size tail ((ds.map fun d => (indent, Mode.Break, d)) ++ rest) cols
    | .List ds =>
      printToks ik width tab_size tail ((ds.map fun d => (indent, mode, d)) ++ rest) cols
    | .GroupThen g doc_flat doc_break =>
      match mode with
      | .Flat =>
        printToks ik width tab_size tail
          ((g.map fun d => (indent, Mode.Flat, d)) ++ (indent, Mode.Flat, doc_flat) :: rest) cols
      | .Break =>
        if fitting (g.map fun d => (indent, Mode.Flat, d)) (rest ++ tail) cols width then
          printToks ik width tab_size tail
            ((g.map fun d => (indent, Mode.Flat, d)) ++ (indent, Mode.Break, doc_flat) :: rest) cols
        else
          printToks ik width tab_size tail
            ((g.map fun d => (indent, Mode.Break, d)) ++ (indent, Mode.Break, doc_break) :: rest) cols
termination_by _ actions _ => actionsSize actions
decreasing_by
  all_goals simp only [actionsSize_nil, actionsSize_cons, actionsSize_append, actionsSize_map,
    List.length_cons, Doc.size]
  all_goals omega

theorem renderToks_append (lb : String) (t₁ t₂ : List Tok) :
    renderToks lb (t₁ ++ t₂) = renderToks lb t₁ ++ renderToks lb t₂ := by
  induction t₁ with
  | nil => simp [renderToks]
  | cons t ts ih => cases t <;> simp [renderToks, ih, String.append_assoc]

theorem fits_ite (c : Prop) [Decidable c] (x : FitOutcome) :
    (if c then FitOutcome.overflow else x).fits = if c then false else x.fits := by
  split <;> rfl

theorem fits_flexBreak : FitOutcome.flexBreak.fits = true := rfl

theorem fits_hardLineBreak : FitOutcome.hardLineBreak.fits = true := rfl

theorem fits_hardLineFlat : FitOutcome.hardLineFlat.fits = false := rfl

theorem fits_overflow : FitOutcome.overflow.fits = false := rfl

theorem fits_allFit : FitOutcome.allFit.fits = true := rfl

/-- The instrumented oracle agrees with `fitting`: the Bool is exactly
whether the terminating event counts as fitting. -/
theorem fitting_eq_fitResult (actions best : List Action) (cols width : Nat) :
    fitting actions best cols width = (fitResult actions best cols width).fits := by
  induction actions, best, cols, width using fitting.induct <;>
    simp_all [fitting, fitResult, fits_ite, fits_flexBreak, fits_hardLineBreak,
      fits_hardLineFlat, fits_overflow, fits_allFit]

/-- C1: when the printer pops a `Group` task in Break mode, it consults
the fitting oracle on the children under the Flat assumption followed by
the whole remaining stack, starting from the current column against the
configured width, and then pushes the children in Flat mode when the
oracle answers true and in Break mode otherwise (src/print.rs 131-155). -/
theorem c1_group_break_consults_fitting (opts : PrintOptions) (tail : List Action)
    (indent : Nat) (ds : DocList) (rest : List Action) (cols : Nat) :
    printTo opts tail ((indent, Mode.Break, Doc.Group ds) :: rest) cols =
      if fitting (ds.map fun d => (indent, Mode.Flat, d)) (rest ++ tail) cols opts.width then
        printTo opts tail ((ds.map fun d => (indent, Mode.Flat, d)) ++ rest) cols
      else
        printTo opts tail ((ds.map fun d => (indent, Mode.Break, d)) ++ rest) cols := by
  rw [printTo]

/-- C3: the `Doc::Union` arm is transactional. Writing `r` for the nested
render of the attempt branch from the current column with the rest of the
stack frozen: if `r` reports that everything fit, the result is exactly the
scratch buffer `r.out` spliced in front of the continuation rendered from
the advanced column `r.cols`; otherwise the result is identical to
rendering with the fallback branch pushed at the original indent and mode
with the column restored — no byte of the failed attempt remains
(src/print.rs 62-79). -/
theorem c3_union_transactional (opts : PrintOptions) (tail : List Action)
    (indent : Nat) (mode : Mode) (attempt alternate : Doc) (rest : List Action) (cols : Nat) :
    ((printTo opts (rest ++ tail) [(indent, mode, attempt)] cols).fits = true →
      printTo opts tail ((indent, mode, Doc.Union attempt alternate) :: rest) cols =
        { out := (printTo opts (rest ++ tail) [(indent, mode, attempt)] cols).out ++
            (printTo opts tail rest (printTo opts (rest ++ tail) [(indent, mode, attempt)] cols).cols).out
          cols := (printTo opts tail rest (printTo opts (rest ++ tail) [(indent, mode, attempt)] cols).cols).cols
          fits := (printTo opts tail rest (printTo opts (rest ++ tail) [(indent, mode, attempt)] cols).cols).fits }) ∧
    ((printTo opts (rest ++ tail) [(indent, mode, attempt)] cols).fits = false →
      printTo opts tail ((indent, mode, Doc.Union attempt alternate) :: rest) cols =
        printTo opts tail ((indent, mode, alternate) :: rest) cols) := by
  constructor <;> intro h <;> rw [printTo] <;> simp [h]

/-- C4 counterexample: at a Flat-mode `Union` task the oracle of the code and
the spec-described mode-picking oracle disagree: with attempt branch
`Text "aaaa"`, fallback `Nil`, column 0 and width 2, the code follows the
fallback and answers true, while picking the branch the Flat mode would
pick (the attempt) overflows and answers false. -/
theorem c4_counterexample :
    fitting [(0, Mode.Flat, Doc.Union (Doc.Text "aaaa") Doc.Nil)] [] 0 2 = true ∧
    fittingModePick [(0, Mode.Flat, Doc.Union (Doc.Text "aaaa") Doc.Nil)] [] 0 2 = false := by
  constructor <;>
    simp [fitting, fittingModePick, measure_text_width,
      (by decide : "aaaa".utf8ByteSize = 4)]

/-- C4 amended: when the fitting oracle encounters a `Union`, it always
follows the fallback (second) branch with the mode the task carries —
whether that mode is Flat or Break — and never re-attempts the speculative
choice: the attempt branch never influences the scan
(src/print.rs 223-225). -/
theorem c4_union_in_fitting_follows_fallback (indent : Nat) (mode : Mode)
    (attempt fallback : Doc) (rest best : List Action) (cols width : Nat) :
    fitting ((indent, mode, Doc.Union attempt fallback) :: rest) best cols width =
      if cols > width then false
      else fitting ((indent, mode, fallback) :: rest) best cols width := by
  rw [fitting]

/-- C7: calling `print` with `tab_size = 0` is the fatal error, detected
before any node is processed and producing no output (modelled as `none`),
while for every `tab_size > 0` the call never fails and returns a string
for every document (src/print.rs 19-26). -/
theorem c7_tab_size_zero_fatal (d : Doc) (opts : PrintOptions) :
    (opts.tab_size = 0 → print d opts = none) ∧
    (0 < opts.tab_size → ∃ s, print d opts = some s) := by
  constructor
  · intro h
    simp [print, h]
  · intro h
    refine ⟨(printTo opts [] [(0, Mode.Break, d)] 0).out, ?_⟩
    simp [print, h]

/-- C2: in the fitting oracle a `NewLine` (HardLine) ends the lookahead
at once, answering true under Break mode and false under Flat mode
(src/print.rs 236-239); consequently, whenever the scan of a group under
the Flat assumption terminates by reaching a HardLine in Flat mode — that
is, before overflowing the width and before any Break-mode break — the
flat attempt fails and the group is rendered with its children in Break
mode, whatever the configured width is. -/
theorem c2_hardline_terminates_fitting :
    (∀ (indent : Nat) (rest best : List Action) (cols width : Nat),
      fitting ((indent, Mode.Flat, Doc.NewLine) :: rest) best cols width = false ∧
      fitting ((indent, Mode.Break, Doc.NewLine) :: rest) best cols width = true) ∧
    (∀ (opts : PrintOptions) (tail : List Action) (indent : Nat) (ds : DocList)
        (rest : List Action) (cols : Nat),
      fitResult (ds.map fun d => (indent, Mode.Flat, d)) (rest ++ tail) cols opts.width =
          FitOutcome.hardLineFlat →
        fitting (ds.map fun d => (indent, Mode.Flat, d)) (rest ++ tail) cols opts.width = false ∧
        printTo opts tail ((indent, Mode.Break, Doc.Group ds) :: rest) cols =
          printTo opts tail ((ds.map fun d => (indent, Mode.Break, d)) ++ rest) cols) := by
  constructor
  · intro indent rest best cols width
    constructor <;> rw [fitting]
  · intro opts tail indent ds rest cols h
    have hf : fitting (ds.map fun d => (indent, Mode.Flat, d)) (rest ++ tail) cols
        opts.width = false := by
      rw [fitting_eq_fitResult, h, fits_hardLineFlat]
    refine ⟨hf, ?_⟩
    rw [printTo]
    simp [hf]

/-- The hypothesis of the second half of the C2 theorem is satisfiable:
the group `[Text "fn(", NewLine]` scanned flat from column 0 at width 80
terminates on the HardLine in Flat mode. -/
theorem hardLineFlat_reachable :
    fitResult ([Doc.Text "fn(", Doc.NewLine].map fun d => (0, Mode.Flat, d)) ([] ++ [])
      0 80 = FitOutcome.hardLineFlat := by
  simp [fitResult, measure_text_width, (by decide : "fn(".utf8ByteSize = 3)]

/-- C6: `Nest(k, d)` pushes its subtree with the indent raised by exactly
`k`; the indent has no effect on what a `Text` emits nor on the spaces a
Flat-mode `Break` emits; a Break-mode `Break` and a `NewLine` emit padding
computed from the task indent (plus the local offset), so the breaks of a
subtree land exactly `k` columns further under `Nest(k, ·)`; and
`Doc::nest` called on a `Break` folds into its offset and renders
identically to wrapping it in `Nest` (src/doc.rs 528-535,
src/print.rs 80-130). -/
theorem c6_nest_indentation (opts : PrintOptions) (tail : List Action)
    (i k s o : Nat) (m : Mode) (d : Doc) (t : String) (rest : List Action) (cols : Nat) :
    (printTo opts tail ((i, m, Doc.Nest k d) :: rest) cols =
      printTo opts tail ((i + k, m, d) :: rest) cols)
    ∧ (∀ i', printTo opts tail ((i, m, Doc.Text t) :: rest) cols =
        printTo opts tail ((i', m, Doc.Text t) :: rest) cols)
    ∧ (∀ i' o', printTo opts tail ((i, Mode.Flat, Doc.Break s o) :: rest) cols =
        printTo opts tail ((i', Mode.Flat, Doc.Break s o') :: rest) cols)
    ∧ (printTo opts tail ((i, Mode.Break, Doc.Break s o) :: rest) cols =
        { out := lineBreakStr opts.line_break ++ makeIndent opts (i + o) ++
            (printTo opts tail rest (i + o)).out
          cols := (printTo opts tail rest (i + o)).cols
          fits := decide (i + o ≤ opts.width) && (printTo opts tail rest (i + o)).fits })
    ∧ (printTo opts tail ((i, m, Doc.NewLine) :: rest) cols =
        { out := lineBreakStr opts.line_break ++ makeIndent opts i ++
            (printTo opts tail rest i).out
          cols := (printTo opts tail rest i).cols
          fits := decide (i ≤ opts.width) && (printTo opts tail rest i).fits })
    ∧ (printTo opts tail ((i + k, Mode.Break, Doc.Break s o) :: rest) cols =
        printTo opts tail ((i, Mode.Break, Doc.Break s (o + k)) :: rest) cols)
    ∧ (Doc.nest (Doc.Break s o) k = Doc.Break s (o + k))
    ∧ (∀ m', printTo opts tail ((i, m', Doc.nest (Doc.Break s o) k) :: rest) cols =
        printTo opts tail ((i, m', Doc.Nest k (Doc.Break s o)) :: rest) cols) := by
  refine ⟨by rw [printTo], fun i' => by simp only [printTo], fun i' o' => by simp only [printTo],
    by rw [printTo], by rw [printTo], ?_, rfl, ?_⟩
  · simp only [printTo]
    rw [show i + k + o = i + (o + k) by omega]
  · intro m'
    cases m' <;> simp only [printTo, Doc.nest]
    rw [show i + (o + k) = i + k + o by omega]

/-- A character below 128 is one UTF-8 byte. -/
theorem utf8Size_one_of_ascii (c : Char) (h : c.toNat < 128) : c.utf8Size = 1 := by
  have hv : c.val ≤ UInt32.ofNatCore 0x7F Char.utf8Size.proof_1 := by
    rw [UInt32.le_def]
    exact Nat.le_of_lt_succ h
  rw [Char.utf8Size]
  simp only [if_pos hv]

/-- The UTF-8 byte count of a list of characters below 128 is its length. -/
theorem utf8ByteSize_go_ascii (l : List Char) (h : ∀ c ∈ l, c.toNat < 128) :
    String.utf8ByteSize.go l = l.length := by
  induction l with
  | nil => rfl
  | cons c cs ih =>
    have hc := h c (by simp)
    have hcs : ∀ x ∈ cs, x.toNat < 128 := fun x hx => h x (by simp [hx])
    rw [show String.utf8ByteSize.go (c :: cs) = String.utf8ByteSize.go cs + c.utf8Size from rfl,
      ih hcs, utf8Size_one_of_ascii c hc, List.length_cons]

/-- C9 counterexample: on the two-byte, one-character text "é" the
default width measurement (Rust `str::len()`, UTF-8 bytes) is not the
character count. -/
theorem c9_counterexample : measure_text_width "é" ≠ String.length "é" := by
  decide

/-- C9 amended: the default text width measurement is the UTF-8 byte
length of the text (Rust `str::len()`), used identically for column
advancement in the engine and for the fitting comparison in the oracle; it
coincides with the raw character count exactly on ASCII text
(src/print.rs 83-87, 229-231, 264-267). -/
theorem c9_text_width_uniform_bytes :
    (∀ t : String, measure_text_width t = t.utf8ByteSize)
    ∧ (∀ t : String, (∀ c ∈ t.data, c.toNat < 128) → measure_text_width t = t.length)
    ∧ (∀ (opts : PrintOptions) (tail : List Action) (i : Nat) (m : Mode) (t : String)
        (rest : List Action) (cols : Nat),
        printTo opts tail ((i, m, Doc.Text t) :: rest) cols =
          { out := t ++ (printTo opts tail rest (cols + measure_text_width t)).out
            cols := (printTo opts tail rest (cols + measure_text_width t)).cols
            fits := decide (cols + measure_text_width t ≤ opts.width) &&
              (printTo opts tail rest (cols + measure_text_width t)).fits })
    ∧ (∀ (i : Nat) (m : Mode) (t : String) (rest best : List Action) (cols width : Nat),
        fitting ((i, m, Doc.Text t) :: rest) best cols width =
          if cols + measure_text_width t > width then false
          else fitting rest best (cols + measure_text_width t) width) := by
  refine ⟨fun t => rfl, ?_, fun opts tail i m t rest cols => by rw [printTo],
    fun i m t rest best cols width => by rw [fitting]⟩
  intro t h
  cases t with
  | mk data => exact utf8ByteSize_go_ascii data h

/-- C10: `Doc::soft_line` is a single-child `Group` wrapping
`Break(1, 0)`, so each soft line is its own fit boundary; printing
`list([text "aaaa", soft_line, text "bbbb", soft_line, text "cccc"]).group()`
at width 10 keeps the first soft line a space and breaks the second, while
`line_or_space` under the same grouping breaks at both
(src/doc.rs 155-157, src/print.rs 131-155). -/
theorem c10_soft_line_independent_boundaries :
    Doc.soft_line = Doc.Group [Doc.Break 1 0] ∧
    print (Doc.group (Doc.list [Doc.text "aaaa", Doc.soft_line, Doc.text "bbbb",
        Doc.soft_line, Doc.text "cccc"])) { PrintOptions.default with width := 10 } =
      some "aaaa bbbb\ncccc" ∧
    print (Doc.group (Doc.list [Doc.text "aaaa", Doc.line_or_space, Doc.text "bbbb",
        Doc.line_or_space, Doc.text "cccc"])) { PrintOptions.default with width := 10 } =
      some "aaaa\nbbbb\ncccc" := by
  refine ⟨rfl, ?_, ?_⟩ <;>
    (simp [print, printTo, fitting, Doc.group, Doc.list, Doc.text, Doc.soft_line,
      Doc.line_or_space, PrintOptions.default, measure_text_width, strRepeat, makeIndent,
      lineBreakStr, (by decide : "aaaa".utf8ByteSize = 4),
      (by decide : "bbbb".utf8ByteSize = 4), (by decide : "cccc".utf8ByteSize = 4)];
      decide)

/-- The real engine is the token-level engine followed by rendering each
separator with the configured line-break spelling; the final column and
the fits flag are those of the token-level engine, which never reads the
line-break option. -/
theorem printTo_eq_render (opts : PrintOptions) (tail actions : List Action) (cols : Nat) :
    printTo opts tail actions cols =
      { out := renderToks (lineBreakStr opts.line_break)
          (printToks opts.indent_kind opts.width opts.tab_size tail actions cols).toks
        cols := (printToks opts.indent_kind opts.width opts.tab_size tail actions cols).cols
        fits := (printToks opts.indent_kind opts.width opts.tab_size tail actions cols).fits } := by
  induction tail, actions, cols using printTo.induct opts <;>
    simp_all [printTo, printToks, renderToks, renderToks_append, makeIndent,
      String.append_assoc]

/-- C8: switching `line_break` between LF and CRLF, everything else held
fixed, changes only the emitted separators: one token list (text pieces
and separator positions, hence break points, text content and indentation
padding) underlies both runs, whose outputs are that token list rendered
with "\n" and with "\r\n" respectively; the final column and the fits
flag — and with them every fitting decision, which reads only columns and
the width — are identical (src/print.rs 47-50, 210-262). -/
theorem c8_line_break_only_separators (d : Doc) (opts : PrintOptions) :
    ∃ toks : List Tok,
      (printTo { opts with line_break := LineBreak.Lf } [] [(0, Mode.Break, d)] 0).out =
          renderToks "\n" toks ∧
      (printTo { opts with line_break := LineBreak.Crlf } [] [(0, Mode.Break, d)] 0).out =
          renderToks "\r\n" toks ∧
      (printTo { opts with line_break := LineBreak.Crlf } [] [(0, Mode.Break, d)] 0).cols =
        (printTo { opts with line_break := LineBreak.Lf } [] [(0, Mode.Break, d)] 0).cols ∧
      (printTo { opts with line_break := LineBreak.Crlf } [] [(0, Mode.Break, d)] 0).fits =
        (printTo { opts with line_break := LineBreak.Lf } [] [(0, Mode.Break, d)] 0).fits ∧
      (0 < opts.tab_size →
        print d { opts with line_break := LineBreak.Lf } = some (renderToks "\n" toks) ∧
        print d { opts with line_break := LineBreak.Crlf } = some (renderToks "\r\n" toks)) := by
  refine ⟨(printToks opts.indent_kind opts.width opts.tab_size [] [(0, Mode.Break, d)] 0).toks,
    ?_, ?_, ?_, ?_, ?_⟩ <;>
    (simp [printTo_eq_render, print, lineBreakStr]; try omega)

theorem plainTextyList_forall (l : DocList) :
    Doc.plainTextyList l = true ↔ ∀ d ∈ l, d.plainTexty = true := by
  induction l with
  | nil => simp [Doc.plainTextyList]
  | cons d ds ih => simp [Doc.plainTextyList, ih]

theorem textContentList_append (l₁ l₂ : DocList) :
    Doc.textContentList (l₁ ++ l₂) =
      Doc.textContentList l₁ ++ Doc.textContentList l₂ := by
  induction l₁ with
  | nil =>
    show Doc.textContentList l₂ = "" ++ Doc.textContentList l₂
    cases Doc.textContentList l₂
    rfl
  | cons d ds ih => simp [Doc.textContentList, ih, String.append_assoc]

theorem str_empty_append (s : String) : "" ++ s = s := by
  cases s
  rfl

theorem str_append_empty (s : String) : s ++ "" = s := by
  cases s with
  | mk data =>
    show String.mk (data ++ []) = String.mk data
    rw [List.append_nil]

theorem map_proj_docs (i : Nat) (m : Mode) (ds : DocList) :
    List.map ((fun (a : Action) => a.2.2) ∘ fun d => (i, m, d)) ds = ds := by
  induction ds with
  | nil => rfl
  | cons d ds ih => simp [ih]

/-- On a stack of docs built only from `Nil`, `Text`, `List` and `Nest`,
the engine emits exactly the concatenated text contents, for any options,
frozen continuation and starting column. -/
theorem printTo_plain (opts : PrintOptions) (tail actions : List Action) (cols : Nat) :
    (∀ a ∈ actions, (a.2.2).plainTexty = true) →
    (printTo opts tail actions cols).out =
      Doc.textContentList (actions.map fun a => a.2.2) := by
  induction tail, actions, cols using printTo.induct opts <;> intro h
  case case1 x cols =>
    rw [printTo]
    rfl
  case case2 tail indent mode rest cols ih =>
    rw [printTo]
    simp [ih (fun a ha => h a (List.mem_cons_of_mem _ ha)),
      Doc.textContentList, Doc.textContent, str_empty_append]
  case case7 tail indent mode rest cols offset d ih =>
    rw [printTo]
    simp [ih (fun a ha => by
        rcases List.mem_cons.mp ha with rfl | ha
        · simpa [Doc.plainTexty] using h _ (List.mem_cons_self _ _)
        · exact h a (List.mem_cons_of_mem _ ha)),
      Doc.textContentList, Doc.textContent, str_empty_append]
  case case8 tail indent mode rest cols text ih =>
    rw [printTo]
    simp [ih (fun a ha => h a (List.mem_cons_of_mem _ ha)),
      Doc.textContentList, Doc.textContent, str_empty_append]
  case case16 tail indent mode rest cols ds ih =>
    rw [printTo]
    simp [ih (fun a ha => by
        rcases List.mem_append.mp ha with hl | hr
        · obtain ⟨d', hd', rfl⟩ := List.mem_map.mp hl
          have hds := h _ (List.mem_cons_self _ _)
          simp [Doc.plainTexty] at hds
          exact (plainTextyList_forall _).mp hds d' hd'
        · exact h a (List.mem_cons_of_mem _ hr)),
      Doc.textContentList, Doc.textContent, textContentList_append,
      List.map_map, map_proj_docs, str_empty_append]
  all_goals
    exfalso
    have hhead := h _ (List.mem_cons_self _ _)
    simp [Doc.plainTexty] at hhead

/-- C5: for every document built only from `Nil`, `Text`, `List` and
`Nest` and every options value with positive tab size, `print` returns
exactly the left-to-right concatenation of all text contents — the width,
line break spelling and indent kind do not appear in the result
(src/print.rs 83-87, 192-195). -/
theorem c5_plain_docs_concat (d : Doc) (opts : PrintOptions)
    (hd : d.plainTexty = true) (ht : 0 < opts.tab_size) :
    print d opts = some d.textContent := by
  rw [print, if_pos ht]
  rw [printTo_plain opts [] [(0, Mode.Break, d)] 0 (fun a ha => by
    rcases List.mem_singleton.mp ha with rfl
    simpa using hd)]
  simp [Doc.textContentList, str_append_empty]

/-- Witness for C5 at a concrete plain document and the default options. -/
theorem c5_witness :
    Doc.plainTexty (Doc.List [Doc.Text "ab", Doc.Nest 3 (Doc.Text "cd"), Doc.Nil]) = true ∧
    0 < PrintOptions.default.tab_size ∧
    print (Doc.List [Doc.Text "ab", Doc.Nest 3 (Doc.Text "cd"), Doc.Nil])
        PrintOptions.default =
      some (Doc.textContent (Doc.List [Doc.Text "ab", Doc.Nest 3 (Doc.Text "cd"), Doc.Nil])) :=
  ⟨by simp [Doc.plainTexty, Doc.plainTextyList], by decide,
    c5_plain_docs_concat _ _ (by simp [Doc.plainTexty, Doc.plainTextyList]) (by decide)⟩

end TinyPretty
